import Mathlib

/-!
Checkerboard tracker utilities (`src/tp/tracker/utility.cpp` and the programs of `src/tp`)

A shallow embedding of the pattern-geometry generators, the homography
decomposer, the detection adapter, the robust pose estimator and the reference
system overlay of `utility.cpp`, of `loadCameraParameters`
(`checkerboardvideoUndistort.cpp`) and of `parseArgs`
(`checkerboardvideoRectified.cpp`), together with the properties the
specification states about them.

Conventions of the embedding

* C++ `int` is `Int`: signed overflow, which is undefined behaviour, is
  outside the model.  The call `reserve( n )` is kept: a negative `int`
  converts to a `size_type` above `max_size()`, for which `reserve` throws
  `std::length_error`; any other `n` only sets a capacity.
* `float` values are elements of a scalar type `F`.  The generators only
  convert loop counters to `float` and multiply, so they are written over any
  `F` with `IntCast` and `Mul`; the decomposer is written over a field `F`
  with a square-root operation, and its properties are proved for `ℝ`.
* A `void` function with output parameters returns the new value of its
  output parameter; a thrown exception is the `Except.error` result.
-/

set_option autoImplicit false

namespace Tracker

/-! ## Data model -/

/-- The exceptions a call ends in: a `cv::Exception` with the code
`CV_StsBadArg`, raised through `CV_Error`, or the `std::length_error` of
`std::vector::reserve`. -/
inductive CvError where
  | StsBadArg
  | length_error
  deriving DecidableEq, Repr

/-- Modelled from the spec: the enumeration `Pattern` declared in
`tracker/utility.hpp`, which is not among the sources.  The three enumerators
are the pattern kinds the spec lists; `unnamed v` is a value of the enum type,
with underlying integer `v`, that names none of them (the `default:` label of
every `switch` over a `Pattern`). -/
inductive Pattern where
  | CHESSBOARD
  | CIRCLES_GRID
  | ASYMMETRIC_CIRCLES_GRID
  | unnamed (v : Int)
  deriving DecidableEq, Repr

/-- The three pattern kinds that have an enumerator. -/
def Pattern.known : Pattern → Bool
  | .CHESSBOARD => true
  | .CIRCLES_GRID => true
  | .ASYMMETRIC_CIRCLES_GRID => true
  | .unnamed _ => false

/-- The class `cv::Size`: two `int` fields. -/
structure Size where
  width : Int
  height : Int
  deriving DecidableEq, Repr

/-- The class `cv::Point2f`. -/
structure Point2f (F : Type) where
  x : F
  y : F
  deriving DecidableEq, Repr

/-- The class `cv::Point3f`. -/
structure Point3f (F : Type) where
  x : F
  y : F
  z : F
  deriving DecidableEq, Repr

/-! ## Pattern geometry generators -/

/-- The counting loop `for( int i = 0; i < n; i++ ) body`: the body runs for
`i = 0, 1, .., n-1` in this order, and not at all when `n ≤ 0`. -/
def forRange {σ : Type} (n : Int) (body : Int → σ → σ) (s : σ) : σ :=
  (List.range n.toNat).foldl (fun (acc : σ) (i : Nat) => body (i : Int) acc) s

/-- The call `corners.reserve( n )` on a vector, for an `int` argument `n`: a
negative `n` converts to a `size_type` above `max_size()` and the call throws
`std::length_error`; otherwise the content is left as it is. -/
def reserve {α : Type} (corners : List α) (n : Int) : Except CvError (List α) :=
  if n < 0 then .error .length_error else .ok corners

/-- The function `calcChessboardCorners` (utility.cpp, lines 170-201).  The
argument `corners` is the content of the output vector on entry; the result is
its content on return. -/
def calcChessboardCorners {F : Type} [IntCast F] [Mul F]
    (boardSize : Size) (squareSize : F) (corners : List (Point2f F))
    (patternType : Pattern) : Except CvError (List (Point2f F)) := do
  -- corners.resize( 0 )
  let corners := corners.take 0
  let corners ← reserve corners (boardSize.height * boardSize.width)
  match patternType with
  | .CHESSBOARD | .CIRCLES_GRID =>
    .ok (forRange boardSize.height (fun i corners =>
      forRange boardSize.width (fun j corners =>
        corners ++ [⟨(j : F) * squareSize, (i : F) * squareSize⟩]) corners) corners)
  | .ASYMMETRIC_CIRCLES_GRID =>
    .ok (forRange boardSize.height (fun i corners =>
      forRange boardSize.width (fun j corners =>
        corners ++ [⟨((2 * j + Int.tmod i 2 : Int) : F) * squareSize,
                     (i : F) * squareSize⟩]) corners) corners)
  | .unnamed _ => .error .StsBadArg

/-- The function `calcChessboardCorners3D` (utility.cpp, lines 257-290). -/
def calcChessboardCorners3D {F : Type} [IntCast F] [Mul F] [Zero F]
    (boardSize : Size) (squareSize : F) (corners : List (Point3f F))
    (patternType : Pattern) : Except CvError (List (Point3f F)) := do
  let corners := corners.take 0
  let corners ← reserve corners (boardSize.height * boardSize.width)
  match patternType with
  | .CHESSBOARD | .CIRCLES_GRID =>
    .ok (forRange boardSize.height (fun i corners =>
      forRange boardSize.width (fun j corners =>
        corners ++ [⟨(j : F) * squareSize, (i : F) * squareSize, 0⟩]) corners) corners)
  | .ASYMMETRIC_CIRCLES_GRID =>
    .ok (forRange boardSize.height (fun i corners =>
      forRange boardSize.width (fun j corners =>
        corners ++ [⟨((2 * j + Int.tmod i 2 : Int) : F) * squareSize,
                     (i : F) * squareSize, 0⟩]) corners) corners)
  | .unnamed _ => .error .StsBadArg

/-- The point the 2D generator builds at row `i`, column `j`. -/
def corner2D {F : Type} [IntCast F] [Mul F] (squareSize : F) :
    Pattern → Int → Int → Point2f F
  | .ASYMMETRIC_CIRCLES_GRID, i, j =>
    ⟨((2 * j + Int.tmod i 2 : Int) : F) * squareSize, (i : F) * squareSize⟩
  | _, i, j => ⟨(j : F) * squareSize, (i : F) * squareSize⟩

/-- Row-major enumeration of a `W`-column grid with `H` rows. -/
def grid {α : Type} (f : Nat → Nat → α) (W : Nat) : Nat → List α
  | 0 => []
  | H + 1 => grid f W H ++ (List.range W).map (f H)

/-- Lifting of a planar point to the plane `z = 0`. -/
def lift3D {F : Type} [Zero F] (p : Point2f F) : Point3f F := ⟨p.x, p.y, 0⟩

/-! ## Homography decomposer -/

/-- A 3x3 matrix of scalars (`cv::Mat` of 3 rows and 3 columns). -/
abbrev Mat3 (F : Type) := Matrix (Fin 3) (Fin 3) F

/-- A 3x4 pose matrix `[R t]`. -/
abbrev Mat34 (F : Type) := Matrix (Fin 3) (Fin 4) F

/-- A 3x1 column (`cv::Mat` of 3 rows and 1 column). -/
abbrev Vec3 (F : Type) := Fin 3 → F

/-- Determinant of a 3x3 matrix, by expansion along the first row. -/
def det3 {F : Type} [Field F] (m : Mat3 F) : F :=
  m 0 0 * (m 1 1 * m 2 2 - m 1 2 * m 2 1)
    - m 0 1 * (m 1 0 * m 2 2 - m 1 2 * m 2 0)
    + m 0 2 * (m 1 0 * m 2 1 - m 1 1 * m 2 0)

/-- The OpenCV call `Mat::inv()` on a 3x3 matrix (method `DECOMP_LU`): the
cofactor matrix divided by the determinant when the determinant is not zero,
and the zero matrix, without any exception, when it is zero. -/
def inv3 {F : Type} [Field F] [DecidableEq F] (m : Mat3 F) : Mat3 F :=
  let d := det3 m
  if d ≠ 0 then
    let d := 1 / d
    !![(m 1 1 * m 2 2 - m 1 2 * m 2 1) * d, (m 0 2 * m 2 1 - m 0 1 * m 2 2) * d,
         (m 0 1 * m 1 2 - m 0 2 * m 1 1) * d;
       (m 1 2 * m 2 0 - m 1 0 * m 2 2) * d, (m 0 0 * m 2 2 - m 0 2 * m 2 0) * d,
         (m 0 2 * m 1 0 - m 0 0 * m 1 2) * d;
       (m 1 0 * m 2 1 - m 1 1 * m 2 0) * d, (m 0 1 * m 2 0 - m 0 0 * m 2 1) * d,
         (m 0 0 * m 1 1 - m 0 1 * m 1 0) * d]
  else 0

/-- The OpenCV call `m.col(j)`: column `j` of a matrix with 3 rows. -/
def col {F : Type} {n : Nat} (m : Matrix (Fin 3) (Fin n) F) (j : Fin n) : Vec3 F :=
  fun i => m i j

/-- The OpenCV call `norm(v)` (L2 norm) of a 3x1 column, over a scalar type
with square-root operation `sqrt`. -/
def norm {F : Type} [Field F] (sqrt : F → F) (v : Vec3 F) : F :=
  sqrt (v 0 * v 0 + v 1 * v 1 + v 2 * v 2)

/-- The matrix expression `v * s` for a column `v` and a scalar `s`. -/
def scale {F : Type} [Field F] (v : Vec3 F) (s : F) : Vec3 F :=
  fun i => v i * s

/-- The OpenCV call `a.cross(b)` on two 3x1 columns. -/
def cross {F : Type} [Field F] (a b : Vec3 F) : Vec3 F :=
  ![a 1 * b 2 - a 2 * b 1, a 2 * b 0 - a 0 * b 2, a 0 * b 1 - a 1 * b 0]

/-- The OpenCV call `v.copyTo(m.col(j))`: `m` with column `j` overwritten. -/
def copyToCol {F : Type} (v : Vec3 F) (m : Mat34 F) (j : Fin 4) : Mat34 F :=
  fun i k => if k = j then v i else m i k

/-- The function `decomposeHomography` (utility.cpp, lines 210-244), over a
field of scalars with square root `sqrt`.  The result is the content of the
output parameter `poseMat` on return; the function has no `throw` and no
check on `matK`, so the result is always `Except.ok`. -/
def decomposeHomography {F : Type} [Field F] [DecidableEq F] (sqrt : F → F)
    (H matK : Mat3 F) : Except CvError (Mat34 F) :=
  -- temp contains inv(K)*H
  let temp : Mat3 F := inv3 matK * H
  let r1 := col temp 0
  let r2 := col temp 1
  let lambda := 1 / norm sqrt r1
  let r1 := scale r1 lambda
  let r2 := scale r2 lambda
  let r3 := cross r1 r2
  let t := scale (col temp 2) lambda
  let poseMat : Mat34 F := 0
  let poseMat := copyToCol r1 poseMat 0
  let poseMat := copyToCol r2 poseMat 1
  let poseMat := copyToCol r3 poseMat 2
  let poseMat := copyToCol t poseMat 3
  .ok poseMat

/-- The synthetic homography `matK·[r1 r2 t]` of a pose with rotation `R` and
translation `t`. -/
def homographyOf {F : Type} [Field F] (matK R : Mat3 F) (t : Vec3 F) : Mat3 F :=
  matK * (Matrix.of fun i j => if j = 2 then t i else R i j : Mat3 F)

/-- The rotation block of a pose, `poseMat.colRange( 0, 3 )`. -/
def rotationOf {F : Type} (poseMat : Mat34 F) : Mat3 F :=
  fun i j => poseMat i j.castSucc

/-- The translation of a pose, `poseMat.col( 3 )`. -/
def translationOf {F : Type} (poseMat : Mat34 F) : Vec3 F :=
  col poseMat 3

/-- The homography of a fronto-parallel board seen with identity `matK`:
scale `s` and image offset `(u, v)`. -/
def frontoParallel {F : Type} [Field F] (s u v : F) : Mat3 F :=
  !![s, 0, u; 0, s, v; 0, 0, 1]

/-! ## Detection adapter -/

/-- The class `cv::TermCriteria`. -/
structure TermCriteria where
  type : Int
  maxCount : Int
  epsilon : ℚ
  deriving DecidableEq, Repr

/-- OpenCV constant `CV_TERMCRIT_ITER`. -/
def CV_TERMCRIT_ITER : Int := 1
/-- OpenCV constant `CV_TERMCRIT_EPS`. -/
def CV_TERMCRIT_EPS : Int := 2
/-- OpenCV constant `CV_BGR2GRAY`. -/
def CV_BGR2GRAY : Int := 6
/-- OpenCV constant `CALIB_CB_SYMMETRIC_GRID`, the default `flags` of
`findCirclesGrid`. -/
def CALIB_CB_SYMMETRIC_GRID : Nat := 1
/-- OpenCV constant `CALIB_CB_ASYMMETRIC_GRID`. -/
def CALIB_CB_ASYMMETRIC_GRID : Nat := 2
/-- OpenCV constant `CALIB_CB_CLUSTERING`. -/
def CALIB_CB_CLUSTERING : Nat := 4

/-- A call into the feature-detection library, with the arguments that the
caller chooses. -/
inductive LibCall where
  | findChessboardCorners (patternSize : Size)
  | findCirclesGrid (patternSize : Size) (flags : Nat)
  | cvtColor (code : Int)
  | cornerSubPix (winSize zeroZone : Size) (criteria : TermCriteria)
  deriving DecidableEq, Repr

/-- What a run leaves behind besides its results: the library calls made, in
order, and the lines written to `cerr`. -/
structure Trace where
  calls : List LibCall
  cerr : List String
  deriving DecidableEq, Repr

/-- Computations that call the library: they extend the trace and may end in
a `cv::Exception`. -/
abbrev CvM := StateT Trace (Except CvError)

/-- The external feature-detection library (OpenCV `calib3d` and `imgproc`),
over an image type `Img` and a point type `Pt`.  A detector receives the point
buffer on entry and yields the found flag and the buffer it leaves; every
function may raise a `cv::Exception`. -/
structure FeatureDetection (Img Pt : Type) where
  findChessboardCorners : Img → Size → List Pt → Except CvError (Bool × List Pt)
  findCirclesGrid : Img → Size → List Pt → Nat → Except CvError (Bool × List Pt)
  cvtColor : Img → Int → Except CvError Img
  cornerSubPix : Img → List Pt → Size → Size → TermCriteria → Except CvError (List Pt)

/-- Record a library call in the trace and run it. -/
def libCall {α : Type} (c : LibCall) (r : Except CvError α) : CvM α := do
  modify (fun tr => { tr with calls := tr.calls ++ [c] })
  liftM r

/-- The statement `cerr << msg << endl`. -/
def cerrLine (msg : String) : CvM Unit :=
  modify (fun tr => { tr with cerr := tr.cerr ++ [msg] })

/-- The function `detectChessboard` (utility.cpp, lines 26-76).  The argument
`pointbuf` is the content of the output vector on entry; the result is the
returned flag with the content of `pointbuf` on return. -/
def detectChessboard {Img Pt : Type} (cv : FeatureDetection Img Pt)
    (rgbimage : Img) (pointbuf : List Pt) (boardSize : Size)
    (patternType : Pattern) : CvM (Bool × List Pt) := do
  let found := false
  match patternType with
  | .CHESSBOARD =>
    let (found, pointbuf) ← libCall (.findChessboardCorners boardSize)
      (cv.findChessboardCorners rgbimage boardSize pointbuf)
    if found then
      let viewGrey ← libCall (.cvtColor CV_BGR2GRAY) (cv.cvtColor rgbimage CV_BGR2GRAY)
      let winSize : Size := ⟨5, 5⟩
      let zeroZone : Size := ⟨-1, -1⟩
      let criteria : TermCriteria := ⟨CV_TERMCRIT_EPS + CV_TERMCRIT_ITER, 40, 1 / 1000⟩
      let pointbuf ← libCall (.cornerSubPix winSize zeroZone criteria)
        (cv.cornerSubPix viewGrey pointbuf winSize zeroZone criteria)
      return (found, pointbuf)
    else
      return (found, pointbuf)
  | .CIRCLES_GRID =>
    let (found, pointbuf) ← libCall (.findCirclesGrid boardSize CALIB_CB_SYMMETRIC_GRID)
      (cv.findCirclesGrid rgbimage boardSize pointbuf CALIB_CB_SYMMETRIC_GRID)
    return (found, pointbuf)
  | .ASYMMETRIC_CIRCLES_GRID =>
    let (found, pointbuf) ← libCall (.findCirclesGrid boardSize CALIB_CB_ASYMMETRIC_GRID)
      (cv.findCirclesGrid rgbimage boardSize pointbuf CALIB_CB_ASYMMETRIC_GRID)
    return (found, pointbuf)
  | .unnamed _ =>
    cerrLine "Unknown pattern type"
    return (found, pointbuf)

/-- A detection library whose circle-grid detector finds the grid exactly
when the asymmetric-grid mode and the clustering mode are both enabled; the
other functions leave their input as it is. -/
def clusteringDetector : FeatureDetection Unit (Point2f ℚ) where
  findChessboardCorners := fun _ _ buf => .ok (false, buf)
  findCirclesGrid := fun _ _ buf flags =>
    .ok (decide (flags = CALIB_CB_ASYMMETRIC_GRID ||| CALIB_CB_CLUSTERING), buf)
  cvtColor := fun img _ => .ok img
  cornerSubPix := fun _ buf _ _ _ => .ok buf

/-! ## Robust pose estimator -/

/-- The OpenCV functions `mySolvePnPRansac` and `myProjectPoints` call, over
types of object points, image points, camera matrices, distortion
coefficients, rotation vectors and inlier lists.  `solvePnPRansac` receives
the inputs with the arguments `useExtrinsicGuess`, `iterationsCount`,
`reprojectionError` and `confidence`, and yields the flag it returns (true
when a pose was found) with the `rvec`, `tvec` and `inliers` it leaves;
`Rodrigues` converts a rotation vector to a matrix and `RodriguesInv` a matrix
to a rotation vector; `projectPoint` is the image of one 3D point under
`projectPoints`.  Every call may raise a `cv::Exception`. -/
structure PoseLibrary (F Obj Img Cam Dist RVec Inl P : Type) where
  solvePnPRansac : Obj → Img → Cam → Dist → Bool → Int → ℚ → ℚ →
    Except CvError (Bool × RVec × Vec3 F × Inl)
  Rodrigues : RVec → Except CvError (Mat3 F)
  RodriguesInv : Mat3 F → Except CvError RVec
  projectPoint : RVec → Vec3 F → Cam → Dist → Point3f F → P

/-- The pose matrix whose columns 0 to 2 are `Rot` and whose column 3 is `t`:
`Rot.copyTo( poseMat.colRange( 0, 3 ) ); t.copyTo( poseMat.col( 3 ) )`. -/
def assemblePose {F : Type} (Rot : Mat3 F) (t : Vec3 F) : Mat34 F :=
  fun i j => if h : j.val < 3 then Rot i ⟨j.val, h⟩ else t i

/-- The function `mySolvePnPRansac` (utility.cpp, lines 302-325).  The result
is the content of the output parameters `poseMat` and `inliers` on return.
Both branches of the `#if` fill `poseMat` with the same columns. -/
def mySolvePnPRansac {F Obj Img Cam Dist RVec Inl P : Type}
    (cv : PoseLibrary F Obj Img Cam Dist RVec Inl P)
    (objectPoints : Obj) (imagePoints : Img) (cameraMatrix : Cam)
    (distCoeffs : Dist) : Except CvError (Mat34 F × Inl) := do
  -- the value solvePnPRansac returns is not used
  let (_, currR, currT, inliers) ←
    cv.solvePnPRansac objectPoints imagePoints cameraMatrix distCoeffs false 100 2 (99 / 100)
  let Rot ← cv.Rodrigues currR
  let poseMat := assemblePose Rot currT
  return (poseMat, inliers)

/-- A library whose RANSAC solver finds no pose on any input: it returns
false, leaves zero vectors in `rvec` and `tvec` and no inliers; `Rodrigues`
maps the zero vector to the identity matrix. -/
def noPoseLibrary : PoseLibrary ℚ Unit Unit Unit (List ℚ) (Vec3 ℚ) (List Int) (Point3f ℚ) where
  solvePnPRansac := fun _ _ _ _ _ _ _ _ => .ok (false, 0, 0, [])
  Rodrigues := fun _ => .ok 1
  RodriguesInv := fun _ => .ok 0
  projectPoint := fun _ _ _ _ p => p

/-! ## Calibration file loader (`src/tp/checkerboardvideoUndistort.cpp`) -/

/-- The macro `EXIT_FAILURE` of `<cstdlib>`. -/
def EXIT_FAILURE : Int := 1

/-- The conversion of an `int` to `bool`: every value but 0 is `true`. -/
def intToBool (n : Int) : Bool := n != 0

/-- The files as `cv::FileStorage` sees them, over a type `M` of matrices:
`fsOpen name flags` is the value `fs.open(name, flags)` returns, and
`node name tag` is the matrix `fs[tag] >> m` stores in `m` once `name` is
open. -/
structure FileStorage (M : Type) where
  fsOpen : String → Int → Bool
  node : String → String → M

/-- What a call of `loadCameraParameters` leaves: the returned value, the two
output matrices, and the lines written to `cerr` and `cout`. -/
structure LoadOutcome (M : Type) where
  returned : Bool
  matK : M
  dist : M
  cerr : List String
  cout : List M

/-- The function `loadCameraParameters` (checkerboardvideoUndistort.cpp,
lines 33-57).  The arguments `matK` and `dist` are the output matrices on
entry. -/
def loadCameraParameters {M : Type} (fs : FileStorage M) (calibFilename : String)
    (matK dist : M) : LoadOutcome M :=
  let opened := fs.fsOpen calibFilename 0
  if !opened then
    -- return EXIT_FAILURE; in a function that returns bool
    ⟨intToBool EXIT_FAILURE, matK, dist, ["Aborting..."], []⟩
  else
    let matK := fs.node calibFilename "camera_matrix"
    let dist := fs.node calibFilename "distortion_coefficients"
    ⟨true, matK, dist, [], [matK, dist]⟩

/-- A file system on which no file can be opened. -/
def noFiles : FileStorage (List ℚ) where
  fsOpen := fun _ _ => false
  node := fun _ _ => []

/-! ## Command line of the rectification program
(`src/tp/checkerboardvideoRectified.cpp`) -/

/-- The ways a run of `parseArgs` ends without returning: `argv[argc]`, a null
pointer, is handed to `sscanf` or `strcmp`. -/
inductive Fault where
  | nullArgument
  deriving DecidableEq, Repr

/-- The variables `parseArgs` writes through its reference parameters, and its
output: the lines written to `cerr` and whether `help` was called. -/
structure ParseState where
  boardSize : Size
  inputFilename : String
  pattern : Pattern
  cerr : List String
  helpShown : Bool
  deriving DecidableEq, Repr

/-- The variables of `main` when it calls `parseArgs`: a default `Size`, an
empty file name and the pattern CHESSBOARD. -/
def ParseState.initial : ParseState :=
  ⟨⟨0, 0⟩, "", .CHESSBOARD, [], false⟩

/-- The statement `cerr << msg << endl` of `parseArgs`. -/
def ParseState.err (st : ParseState) (msg : String) : ParseState :=
  { st with cerr := st.cerr ++ [msg] }

/-- The body of the loop `for( int i = 1; i < argc; i++ )` of `parseArgs`, run
on the arguments `argv[i], .., argv[argc-1]` that are left.  The parameter
`sscanfU str` is the libc call `sscanf( str, "%u", &n )`: `none` when it does
not return 1 (then `n` is left as it is), and `some v` when it returns 1 and
`v` is the value of the `int` variable `n` afterwards. -/
def parseLoop (sscanfU : String → Option Int) :
    List String → ParseState → Except Fault (Bool × ParseState)
  | [], st => .ok (true, st)
  | s :: rest, st =>
    if s = "-w" then
      match rest with
      | [] => .error .nullArgument
      | v :: rest =>
        match sscanfU v with
        | none => .ok (false, st.err "Invalid board width")
        | some n =>
          let st := { st with boardSize := { st.boardSize with width := n } }
          if n ≤ 0 then .ok (false, st.err "Invalid board width")
          else parseLoop sscanfU rest st
    else if s = "-h" then
      match rest with
      | [] => .error .nullArgument
      | v :: rest =>
        match sscanfU v with
        | none => .ok (false, st.err "Invalid board height")
        | some n =>
          let st := { st with boardSize := { st.boardSize with height := n } }
          if n ≤ 0 then .ok (false, st.err "Invalid board height")
          else parseLoop sscanfU rest st
    else if s.get 0 ≠ '-' then
      parseLoop sscanfU rest { st with inputFilename := s }
    else if s = "-pt" then
      match rest with
      | [] => .error .nullArgument
      | v :: rest =>
        if v = "circles" then
          parseLoop sscanfU rest { st with pattern := .CIRCLES_GRID }
        else if v = "acircles" then
          parseLoop sscanfU rest { st with pattern := .ASYMMETRIC_CIRCLES_GRID }
        else if v = "chess" then
          parseLoop sscanfU rest { st with pattern := .CHESSBOARD }
        else
          .ok (false, st.err "Invalid pattern type: must be chessboard or circles")
    else
      .ok (false, st.err ("Unknown option " ++ s))
termination_by args => args.length

/-- The function `parseArgs` of the rectification program
(checkerboardvideoRectified.cpp, lines 168-225).  The list `argv` holds
`argv[0], .., argv[argc-1]`, so `argc` is its length; `st` holds the variables
behind the reference parameters on entry.  The result is the returned value
with the variables on return. -/
def parseArgs (sscanfU : String → Option Int) (argv : List String)
    (st : ParseState) : Except Fault (Bool × ParseState) :=
  -- check the minimum number of arguments
  if (argv.length : Int) < 3 then
    .ok (false, { st with helpShown := true })
  else
    parseLoop sscanfU (argv.drop 1) st

/-- The value of a string of decimal digits after the digits read so far,
`none` when a character is not a digit. -/
def digitsValue : List Char → Nat → Option Nat
  | [], acc => some acc
  | c :: cs, acc =>
    if c.isDigit then digitsValue cs (10 * acc + (c.toNat - 48)) else none

/-- A conversion for the parameter `sscanfU`: it converts the decimal
numerals, with or without a minus sign in front, and nothing else. -/
def decimalScan (str : String) : Option Int :=
  match str.data with
  | [] => none
  | '-' :: cs => if cs = [] then none else (digitsValue cs 0).map (fun n => -(n : Int))
  | cs => (digitsValue cs 0).map (fun n => (n : Int))

/-- A value given to `-w` or `-h` is rejected by the test
`sscanf( .. ) != 1 || n <= 0`. -/
def invalidValue (sscanfU : String → Option Int) (v : String) : Prop :=
  sscanfU v = none ∨ ∃ n, sscanfU v = some n ∧ n ≤ 0

/-! ## Reference system overlay -/

/-- Modelled from the spec: the class `Camera` of `tracker/Camera.hpp`, which
is not among the sources; the two members `drawReferenceSystem` reads, the
calibration matrix and the distortion coefficients (the CameraIntrinsics of
the spec). -/
structure Camera (Cam Dist : Type) where
  matK : Cam
  distCoeff : Dist

/-- The class `cv::Scalar`, as the three channels the drawing calls set. -/
structure Scalar where
  v0 : Int
  v1 : Int
  v2 : Int
  deriving DecidableEq, Repr

/-- OpenCV constant `FONT_HERSHEY_SIMPLEX`. -/
def FONT_HERSHEY_SIMPLEX : Int := 0

/-- A drawing call on an image: `line(img, pt1, pt2, color, thickness)` or
`putText(img, text, org, fontFace, fontScale, color, thickness)`. -/
inductive DrawCmd (P : Type) where
  | line (pt1 pt2 : P) (color : Scalar) (thickness : Int)
  | putText (text : String) (org : P) (fontFace : Int) (fontScale : Int)
      (color : Scalar) (thickness : Int)
  deriving DecidableEq, Repr

/-- The function `drawLine` (utility.cpp, lines 83-87).  An image is the list
of the drawing calls made on it. -/
def drawLine {P : Type} (img : List (DrawCmd P)) (firstPoint secondPoint : P)
    (text : String) (color : Scalar) (thickness : Int) : List (DrawCmd P) :=
  img ++ [.line firstPoint secondPoint color thickness,
          .putText text secondPoint FONT_HERSHEY_SIMPLEX 1 color 2]

/-- The function `myProjectPoints` (utility.cpp, lines 154-160), on a vector
of `n` object points; the image points are index-aligned with them. -/
def myProjectPoints {F Obj Img Cam Dist RVec Inl P : Type} {n : Nat}
    (cv : PoseLibrary F Obj Img Cam Dist RVec Inl P)
    (objectPoints : Fin n → Point3f F) (poseMat : Mat34 F) (cameraMatrix : Cam)
    (distCoeffs : Dist) : Except CvError (Fin n → P) := do
  let rvec ← cv.RodriguesInv (rotationOf poseMat)
  return fun k => cv.projectPoint rvec (translationOf poseMat) cameraMatrix distCoeffs
    (objectPoints k)

/-- The function `drawReferenceSystem` (utility.cpp, lines 98-143).  The
result is the image `rgbimage` on return. -/
def drawReferenceSystem {F Obj Img Cam RVec Inl P : Type} [Zero F] [Neg F]
    (cv : PoseLibrary F Obj Img Cam (List F) RVec Inl P)
    (rgbimage : List (DrawCmd P)) (cam : Camera Cam (List F)) (projMat : Mat34 F)
    (thickness : Int) (scale : F) (alreadyUndistorted : Bool) :
    Except CvError (List (DrawCmd P)) := do
  let vertex3D : Fin 4 → Point3f F :=
    ![⟨0, 0, 0⟩, ⟨0, scale, 0⟩, ⟨scale, 0, 0⟩, ⟨0, 0, -scale⟩]
  let distCoeff := if alreadyUndistorted then List.replicate 5 (0 : F) else cam.distCoeff
  let imgRefPts ← myProjectPoints cv vertex3D projMat cam.matK distCoeff
  -- draw the line of the x-axis and put "X" at the end
  let rgbimage := drawLine rgbimage (imgRefPts 0) (imgRefPts 1) "X" ⟨255, 0, 0⟩ thickness
  -- draw the line of the y-axis and put "Y" at the end
  let rgbimage := drawLine rgbimage (imgRefPts 0) (imgRefPts 2) "Y" ⟨0, 255, 0⟩ thickness
  -- draw the line of the z-axis and put "Z" at the end
  let rgbimage := drawLine rgbimage (imgRefPts 0) (imgRefPts 3) "Z" ⟨0, 0, 255⟩ thickness
  return rgbimage

/-- A library whose projection leaves every 3D point as it is, so that the
image of a point shows which point was projected. -/
def plainProjection : PoseLibrary ℚ Unit Unit Unit (List ℚ) (Vec3 ℚ) (List Int) (Point3f ℚ) where
  solvePnPRansac := fun _ _ _ _ _ _ _ _ => .ok (true, 0, 0, [])
  Rodrigues := fun _ => .ok 1
  RodriguesInv := fun _ => .ok 0
  projectPoint := fun _ _ _ _ p => p

/-! ## Loop lemmas -/

theorem forRange_push {α : Type} (n : Int) (g : Int → α) (s : List α) :
    forRange n (fun j c => c ++ [g j]) s
      = s ++ (List.range n.toNat).map (fun (j : Nat) => g (j : Int)) := by
  unfold forRange
  induction n.toNat with
  | zero => simp
  | succ k ih => simp [List.range_succ, List.foldl_append, ih]

theorem forRange_rows {α : Type} (h w : Int) (g : Int → Int → α) (s : List α) :
    forRange h (fun i c => forRange w (fun j c => c ++ [g i j]) c) s
      = s ++ grid (fun i j => g (i : Int) (j : Int)) w.toNat h.toNat := by
  unfold forRange
  induction h.toNat with
  | zero => simp [grid]
  | succ k ih =>
    rw [List.range_succ, List.foldl_append, ih]
    simp only [List.foldl_cons, List.foldl_nil, grid]
    have := forRange_push w (g (k : Int))
    unfold forRange at this
    rw [this, List.append_assoc]

theorem grid_length {α : Type} (f : Nat → Nat → α) (W H : Nat) :
    (grid f W H).length = H * W := by
  induction H with
  | zero => simp [grid]
  | succ k ih => simp [grid, ih, Nat.succ_mul]

theorem grid_getElem? {α : Type} (f : Nat → Nat → α) (W H i j : Nat)
    (hi : i < H) (hj : j < W) : (grid f W H)[i * W + j]? = some (f i j) := by
  induction H with
  | zero => omega
  | succ k ih =>
    unfold grid
    by_cases hik : i < k
    · have hlt : i * W + j < (grid f W k).length := by
        rw [grid_length]
        calc i * W + j < i * W + W := by omega
          _ = (i + 1) * W := by ring
          _ ≤ k * W := Nat.mul_le_mul_right W hik
      rw [List.getElem?_append_left hlt]
      exact ih hik
    · have hik2 : i = k := by omega
      subst hik2
      have hge : (grid f W i).length ≤ i * W + j := by
        rw [grid_length]; omega
      rw [List.getElem?_append_right hge, grid_length]
      simp [hj]

theorem grid_map {α β : Type} (g : α → β) (f : Nat → Nat → α) (W H : Nat) :
    (grid f W H).map g = grid (fun i j => g (f i j)) W H := by
  induction H with
  | zero => simp [grid]
  | succ k ih => simp [grid, ih]

/-- On a pattern kind with an enumerator the 2D generator returns the
row-major grid of the points `corner2D`. -/
theorem calcChessboardCorners_eq_grid {F : Type} [IntCast F] [Mul F]
    (boardSize : Size) (squareSize : F) (corners : List (Point2f F))
    (p : Pattern) (hp : p.known = true)
    (hn : 0 ≤ boardSize.height * boardSize.width) :
    calcChessboardCorners boardSize squareSize corners p
      = .ok (grid (fun i j => corner2D squareSize p (i : Int) (j : Int))
          boardSize.width.toNat boardSize.height.toNat) := by
  have hr : ¬ boardSize.height * boardSize.width < 0 := not_lt.mpr hn
  cases p with
  | unnamed v => simp [Pattern.known] at hp
  | CHESSBOARD =>
    simp [calcChessboardCorners, reserve, hr, bind, Except.bind, forRange_rows, corner2D]
  | CIRCLES_GRID =>
    simp [calcChessboardCorners, reserve, hr, bind, Except.bind, forRange_rows, corner2D]
  | ASYMMETRIC_CIRCLES_GRID =>
    simp [calcChessboardCorners, reserve, hr, bind, Except.bind, forRange_rows, corner2D]

/-- On a pattern kind with an enumerator the 3D generator returns the
row-major grid of the lifted points `corner2D`. -/
theorem calcChessboardCorners3D_eq_grid {F : Type} [IntCast F] [Mul F] [Zero F]
    (boardSize : Size) (squareSize : F) (corners : List (Point3f F))
    (p : Pattern) (hp : p.known = true)
    (hn : 0 ≤ boardSize.height * boardSize.width) :
    calcChessboardCorners3D boardSize squareSize corners p
      = .ok (grid (fun i j => lift3D (corner2D squareSize p (i : Int) (j : Int)))
          boardSize.width.toNat boardSize.height.toNat) := by
  have hr : ¬ boardSize.height * boardSize.width < 0 := not_lt.mpr hn
  cases p with
  | unnamed v => simp [Pattern.known] at hp
  | CHESSBOARD =>
    simp [calcChessboardCorners3D, reserve, hr, bind, Except.bind, forRange_rows,
      corner2D, lift3D]
  | CIRCLES_GRID =>
    simp [calcChessboardCorners3D, reserve, hr, bind, Except.bind, forRange_rows,
      corner2D, lift3D]
  | ASYMMETRIC_CIRCLES_GRID =>
    simp [calcChessboardCorners3D, reserve, hr, bind, Except.bind, forRange_rows,
      corner2D, lift3D]

/-- On a board size whose product height * width is negative the 2D generator
ends in `std::length_error`, raised by `reserve` before the `switch`, whatever
the pattern kind. -/
theorem calcChessboardCorners_negative {F : Type} [IntCast F] [Mul F]
    (boardSize : Size) (squareSize : F) (corners : List (Point2f F)) (p : Pattern)
    (hn : boardSize.height * boardSize.width < 0) :
    calcChessboardCorners boardSize squareSize corners p = .error .length_error := by
  simp [calcChessboardCorners, reserve, hn, bind, Except.bind]

/-- On a board size whose product height * width is negative the 3D generator
ends in `std::length_error`, raised by `reserve` before the `switch`, whatever
the pattern kind. -/
theorem calcChessboardCorners3D_negative {F : Type} [IntCast F] [Mul F] [Zero F]
    (boardSize : Size) (squareSize : F) (corners : List (Point3f F)) (p : Pattern)
    (hn : boardSize.height * boardSize.width < 0) :
    calcChessboardCorners3D boardSize squareSize corners p = .error .length_error := by
  simp [calcChessboardCorners3D, reserve, hn, bind, Except.bind]

/-- On a pattern kind without an enumerator and a board size whose product
height * width is not negative, the 2D generator ends in `CV_StsBadArg`. -/
theorem calcChessboardCorners_unnamed {F : Type} [IntCast F] [Mul F]
    (boardSize : Size) (squareSize : F) (corners : List (Point2f F)) (v : Int)
    (hn : 0 ≤ boardSize.height * boardSize.width) :
    calcChessboardCorners boardSize squareSize corners (.unnamed v)
      = .error .StsBadArg := by
  have hr : ¬ boardSize.height * boardSize.width < 0 := not_lt.mpr hn
  simp [calcChessboardCorners, reserve, hr, bind, Except.bind]

/-- On a pattern kind without an enumerator and a board size whose product
height * width is not negative, the 3D generator ends in `CV_StsBadArg`. -/
theorem calcChessboardCorners3D_unnamed {F : Type} [IntCast F] [Mul F] [Zero F]
    (boardSize : Size) (squareSize : F) (corners : List (Point3f F)) (v : Int)
    (hn : 0 ≤ boardSize.height * boardSize.width) :
    calcChessboardCorners3D boardSize squareSize corners (.unnamed v)
      = .error .StsBadArg := by
  have hr : ¬ boardSize.height * boardSize.width < 0 := not_lt.mpr hn
  simp [calcChessboardCorners3D, reserve, hr, bind, Except.bind]

theorem toNat_index (W i j : Int) (hi : 0 ≤ i) (hj : 0 ≤ j) (hjW : j < W) :
    (i * W + j).toNat = i.toNat * W.toNat + j.toNat := by
  have hW : 0 ≤ W := by omega
  lift i to Nat using hi
  lift j to Nat using hj
  lift W to Nat using hW
  have h : ((i : Int) * (W : Int) + (j : Int)) = ((i * W + j : Nat) : Int) := by
    push_cast; rfl
  rw [h]
  simp only [Int.toNat_ofNat]

/-! ## Properties of the pattern geometry generators -/

/-- C2: for each of the three pattern kinds and every board size with
width W > 0 and height H > 0, `calcChessboardCorners` and
`calcChessboardCorners3D` each return exactly W·H points. -/
theorem calcChessboardCorners_count {F : Type} [IntCast F] [Mul F] [Zero F]
    (boardSize : Size) (squareSize : F) (corners2 : List (Point2f F))
    (corners3 : List (Point3f F)) (p : Pattern) (hp : p.known = true)
    (hW : 0 < boardSize.width) (hH : 0 < boardSize.height) :
    (∃ pts, calcChessboardCorners boardSize squareSize corners2 p = .ok pts
        ∧ (pts.length : Int) = boardSize.width * boardSize.height)
    ∧ (∃ pts, calcChessboardCorners3D boardSize squareSize corners3 p = .ok pts
        ∧ (pts.length : Int) = boardSize.width * boardSize.height) := by
  have key : ((boardSize.height.toNat * boardSize.width.toNat : Nat) : Int)
      = boardSize.width * boardSize.height := by
    push_cast
    rw [Int.toNat_of_nonneg hW.le, Int.toNat_of_nonneg hH.le, mul_comm]
  have hn : 0 ≤ boardSize.height * boardSize.width := mul_nonneg hH.le hW.le
  refine ⟨⟨_, calcChessboardCorners_eq_grid boardSize squareSize corners2 p hp hn, ?_⟩,
    ⟨_, calcChessboardCorners3D_eq_grid boardSize squareSize corners3 p hp hn, ?_⟩⟩
  · rw [grid_length]; exact key
  · rw [grid_length]; exact key

/-- Witness for C2: the 9 x 6 chessboard with square size 25 over `ℚ`. -/
theorem calcChessboardCorners_count_witness :
    (∃ pts, calcChessboardCorners (F := ℚ) ⟨9, 6⟩ 25 [] .CHESSBOARD = .ok pts
        ∧ (pts.length : Int) = 9 * 6)
    ∧ (∃ pts, calcChessboardCorners3D (F := ℚ) ⟨9, 6⟩ 25 [] .CHESSBOARD = .ok pts
        ∧ (pts.length : Int) = 9 * 6) :=
  calcChessboardCorners_count (F := ℚ) ⟨9, 6⟩ 25 [] [] .CHESSBOARD rfl
    (by decide) (by decide)

/-- C3: for CHESSBOARD and CIRCLES_GRID, every board size W x H and every
square size, the point `calcChessboardCorners` returns at index i·W + j, for a
row i in [0,H) and a column j in [0,W), is (j·squareSize, i·squareSize). -/
theorem calcChessboardCorners_rowMajor {F : Type} [IntCast F] [Mul F]
    (boardSize : Size) (squareSize : F) (corners : List (Point2f F))
    (p : Pattern) (hp : p = .CHESSBOARD ∨ p = .CIRCLES_GRID) (i j : Int)
    (hi : 0 ≤ i) (hiH : i < boardSize.height)
    (hj : 0 ≤ j) (hjW : j < boardSize.width) :
    ∃ pts, calcChessboardCorners boardSize squareSize corners p = .ok pts
      ∧ pts[(i * boardSize.width + j).toNat]?
          = some ⟨(j : F) * squareSize, (i : F) * squareSize⟩ := by
  have hk : p.known = true := by rcases hp with h | h <;> subst h <;> rfl
  have hn : 0 ≤ boardSize.height * boardSize.width :=
    mul_nonneg (by omega) (by omega)
  refine ⟨_, calcChessboardCorners_eq_grid boardSize squareSize corners p hk hn, ?_⟩
  rw [toNat_index _ _ _ hi hj hjW, grid_getElem? _ _ _ _ _ (by omega) (by omega)]
  rw [Int.toNat_of_nonneg hi, Int.toNat_of_nonneg hj]
  rcases hp with h | h <;> subst h <;> rfl

/-- Witness for C3: row 1, column 2 of the 4 x 3 symmetric circle grid with
square size 5/2 over `ℚ`. -/
theorem calcChessboardCorners_rowMajor_witness :
    ∃ pts, calcChessboardCorners (F := ℚ) ⟨4, 3⟩ (5 / 2) [] .CIRCLES_GRID = .ok pts
      ∧ pts[((1 : Int) * 4 + 2).toNat]?
          = some ⟨((2 : Int) : ℚ) * (5 / 2), ((1 : Int) : ℚ) * (5 / 2)⟩ :=
  calcChessboardCorners_rowMajor (F := ℚ) ⟨4, 3⟩ (5 / 2) [] .CIRCLES_GRID
    (Or.inr rfl) 1 2 (by decide) (by decide) (by decide) (by decide)

/-- C4: for ASYMMETRIC_CIRCLES_GRID, every board size W x H and every square
size S, the point `calcChessboardCorners` returns at index i·W + j, for a row
i in [0,H) and a column j in [0,W), is ((2j + i mod 2)·S, i·S). -/
theorem calcChessboardCorners_asymmetric {F : Type} [IntCast F] [Mul F]
    (boardSize : Size) (squareSize : F) (corners : List (Point2f F)) (i j : Int)
    (hi : 0 ≤ i) (hiH : i < boardSize.height)
    (hj : 0 ≤ j) (hjW : j < boardSize.width) :
    ∃ pts, calcChessboardCorners boardSize squareSize corners
          .ASYMMETRIC_CIRCLES_GRID = .ok pts
      ∧ pts[(i * boardSize.width + j).toNat]?
          = some ⟨((2 * j + i % 2 : Int) : F) * squareSize, (i : F) * squareSize⟩ := by
  have hn : 0 ≤ boardSize.height * boardSize.width :=
    mul_nonneg (by omega) (by omega)
  refine ⟨_, calcChessboardCorners_eq_grid boardSize squareSize corners _ rfl hn, ?_⟩
  rw [toNat_index _ _ _ hi hj hjW, grid_getElem? _ _ _ _ _ (by omega) (by omega)]
  rw [Int.toNat_of_nonneg hi, Int.toNat_of_nonneg hj]
  have hmod : Int.tmod i 2 = i % 2 := Int.tmod_eq_emod hi (by decide)
  simp [corner2D, hmod]

/-- Witness for C4: row 3, column 1 of the 4 x 11 asymmetric circle grid with
square size 7 over `ℚ`. -/
theorem calcChessboardCorners_asymmetric_witness :
    ∃ pts, calcChessboardCorners (F := ℚ) ⟨4, 11⟩ 7 [] .ASYMMETRIC_CIRCLES_GRID = .ok pts
      ∧ pts[((3 : Int) * 4 + 1).toNat]?
          = some ⟨((2 * 1 + 3 % 2 : Int) : ℚ) * 7, ((3 : Int) : ℚ) * 7⟩ :=
  calcChessboardCorners_asymmetric (F := ℚ) ⟨4, 11⟩ 7 [] 3 1
    (by decide) (by decide) (by decide) (by decide)

/-- C5, as the spec states it, fails: on the board size -1 x 5, the pattern
kind CHESSBOARD and square size 25, `calcChessboardCorners3D` and
`calcChessboardCorners` return no list; both end in the `std::length_error`
that `reserve` raises on the negative product. -/
theorem calcChessboardCorners3D_negative_board_no_list :
    calcChessboardCorners3D (F := ℚ) ⟨-1, 5⟩ 25 [] .CHESSBOARD = .error .length_error
    ∧ calcChessboardCorners (F := ℚ) ⟨-1, 5⟩ 25 [] .CHESSBOARD = .error .length_error
    ∧ ¬ ∃ pts3, calcChessboardCorners3D (F := ℚ) ⟨-1, 5⟩ 25 [] .CHESSBOARD = .ok pts3 := by
  have h3 := calcChessboardCorners3D_negative (F := ℚ) ⟨-1, 5⟩ 25 [] .CHESSBOARD
    (by decide)
  refine ⟨h3, calcChessboardCorners_negative (F := ℚ) ⟨-1, 5⟩ 25 [] .CHESSBOARD
    (by decide), ?_⟩
  rintro ⟨pts3, h⟩
  rw [h3] at h
  cases h

/-- C5, amended: for every pattern kind with an enumerator, every square size
and every board size whose product height * width is not negative,
`calcChessboardCorners3D` returns as many points as `calcChessboardCorners`,
and at every index k its point has z = 0 and the x and y of the 2D
generator's point at index k (it is that point lifted to the plane z = 0); on
a board size with a negative product both generators end in
`std::length_error`. -/
theorem calcChessboardCorners3D_lifts_2D {F : Type} [IntCast F] [Mul F] [Zero F]
    (boardSize : Size) (squareSize : F) (corners2 : List (Point2f F))
    (corners3 : List (Point3f F)) (p : Pattern) (hp : p.known = true) :
    (0 ≤ boardSize.height * boardSize.width →
      ∃ pts2 pts3, calcChessboardCorners boardSize squareSize corners2 p = .ok pts2
        ∧ calcChessboardCorners3D boardSize squareSize corners3 p = .ok pts3
        ∧ pts3.length = pts2.length
        ∧ ∀ k, k < pts2.length → ∃ q2 q3, pts2[k]? = some q2 ∧ pts3[k]? = some q3
            ∧ q3.z = 0 ∧ q3.x = q2.x ∧ q3.y = q2.y ∧ q3 = lift3D q2)
    ∧ (boardSize.height * boardSize.width < 0 →
      calcChessboardCorners boardSize squareSize corners2 p = .error .length_error
        ∧ calcChessboardCorners3D boardSize squareSize corners3 p
            = .error .length_error) := by
  constructor
  · intro hn
    refine ⟨_, _, calcChessboardCorners_eq_grid boardSize squareSize corners2 p hp hn,
      calcChessboardCorners3D_eq_grid boardSize squareSize corners3 p hp hn, ?_, ?_⟩
    · rw [grid_length, grid_length]
    · intro k hk
      rw [← grid_map lift3D]
      refine ⟨_, _, List.getElem?_eq_getElem hk, ?_, ?_, rfl, rfl, rfl⟩
      · rw [List.getElem?_map, List.getElem?_eq_getElem hk]; rfl
      · rfl
  · intro hn
    exact ⟨calcChessboardCorners_negative boardSize squareSize corners2 p hn,
      calcChessboardCorners3D_negative boardSize squareSize corners3 p hn⟩

/-- Witness for the amended C5: the 4 x 11 asymmetric circle grid with square
size 7 over `ℚ`. -/
theorem calcChessboardCorners3D_lifts_2D_witness :
    ∃ pts2 pts3,
      calcChessboardCorners (F := ℚ) ⟨4, 11⟩ 7 [] .ASYMMETRIC_CIRCLES_GRID = .ok pts2
      ∧ calcChessboardCorners3D (F := ℚ) ⟨4, 11⟩ 7 [] .ASYMMETRIC_CIRCLES_GRID = .ok pts3
      ∧ pts3.length = pts2.length
      ∧ ∀ k, k < pts2.length → ∃ q2 q3, pts2[k]? = some q2 ∧ pts3[k]? = some q3
          ∧ q3.z = 0 ∧ q3.x = q2.x ∧ q3.y = q2.y ∧ q3 = lift3D q2 :=
  (calcChessboardCorners3D_lifts_2D (F := ℚ) ⟨4, 11⟩ 7 [] []
    .ASYMMETRIC_CIRCLES_GRID rfl).1 (by decide)

/-- C8, as the spec states it, fails: on the board size -1 x 5 and a pattern
kind without an enumerator, `calcChessboardCorners` and
`calcChessboardCorners3D` end in `std::length_error`, raised by `reserve`
before the `switch`, and not in the bad-argument error. -/
theorem calcChessboardCorners_negative_board_not_bad_arg :
    calcChessboardCorners (F := ℚ) ⟨-1, 5⟩ 25 [] (.unnamed 7) = .error .length_error
    ∧ calcChessboardCorners3D (F := ℚ) ⟨-1, 5⟩ 25 [] (.unnamed 7) = .error .length_error
    ∧ calcChessboardCorners (F := ℚ) ⟨-1, 5⟩ 25 [] (.unnamed 7) ≠ .error .StsBadArg := by
  have h2 := calcChessboardCorners_negative (F := ℚ) ⟨-1, 5⟩ 25 [] (.unnamed 7)
    (by decide)
  refine ⟨h2, calcChessboardCorners3D_negative (F := ℚ) ⟨-1, 5⟩ 25 [] (.unnamed 7)
    (by decide), ?_⟩
  rw [h2]
  intro h
  cases h

/-- C8, amended: for every pattern kind without an enumerator and every
square size, `calcChessboardCorners` and `calcChessboardCorners3D` return no
point set: on every board size whose product height * width is not negative
they end in the bad-argument error `CV_StsBadArg`, and on a board size with a
negative product in the `std::length_error` of `reserve`. -/
theorem calcChessboardCorners_unknown_pattern {F : Type} [IntCast F] [Mul F] [Zero F]
    (boardSize : Size) (squareSize : F) (corners2 : List (Point2f F))
    (corners3 : List (Point3f F)) (v : Int) :
    (0 ≤ boardSize.height * boardSize.width →
      calcChessboardCorners boardSize squareSize corners2 (.unnamed v)
          = .error .StsBadArg
      ∧ calcChessboardCorners3D boardSize squareSize corners3 (.unnamed v)
          = .error .StsBadArg)
    ∧ (boardSize.height * boardSize.width < 0 →
      calcChessboardCorners boardSize squareSize corners2 (.unnamed v)
          = .error .length_error
      ∧ calcChessboardCorners3D boardSize squareSize corners3 (.unnamed v)
          = .error .length_error) :=
  ⟨fun hn => ⟨calcChessboardCorners_unnamed boardSize squareSize corners2 v hn,
      calcChessboardCorners3D_unnamed boardSize squareSize corners3 v hn⟩,
   fun hn => ⟨calcChessboardCorners_negative boardSize squareSize corners2 _ hn,
      calcChessboardCorners3D_negative boardSize squareSize corners3 _ hn⟩⟩

/-- Witness for the amended C8: the 9 x 6 board, square size 25 and the
pattern value 7. -/
theorem calcChessboardCorners_unknown_pattern_witness :
    calcChessboardCorners (F := ℚ) ⟨9, 6⟩ 25 [] (.unnamed 7) = .error .StsBadArg
    ∧ calcChessboardCorners3D (F := ℚ) ⟨9, 6⟩ 25 [] (.unnamed 7) = .error .StsBadArg :=
  (calcChessboardCorners_unknown_pattern (F := ℚ) ⟨9, 6⟩ 25 [] [] 7).1 (by decide)

/-! ## Properties of the homography decomposer -/

theorem det3_eq_det {F : Type} [Field F] (m : Mat3 F) : det3 m = m.det := by
  rw [Matrix.det_fin_three]; unfold det3; ring

theorem inv3_mul_self {F : Type} [Field F] [DecidableEq F] (m : Mat3 F)
    (hm : det3 m ≠ 0) : inv3 m * m = 1 := by
  have hd : m 0 0 * (m 1 1 * m 2 2 - m 1 2 * m 2 1)
      - m 0 1 * (m 1 0 * m 2 2 - m 1 2 * m 2 0)
      + m 0 2 * (m 1 0 * m 2 1 - m 1 1 * m 2 0) = det3 m := rfl
  ext i j
  fin_cases i <;> fin_cases j <;>
    simp [inv3, hm, Matrix.mul_apply, Fin.sum_univ_three] <;>
    field_simp <;> (try rw [← hd]) <;> ring

theorem inv3_singular {F : Type} [Field F] [DecidableEq F] (m : Mat3 F)
    (hm : det3 m = 0) : inv3 m = 0 := by
  simp [inv3, hm]

theorem scale_one {F : Type} [Field F] (v : Vec3 F) : scale v 1 = v := by
  funext i; simp [scale]

theorem cross_eq_crossProduct {F : Type} [Field F] (a b : Vec3 F) :
    cross a b = crossProduct a b := by
  simp [cross, cross_apply]

/-- The value `decomposeHomography` returns, in terms of `M = inv3 matK * H`. -/
theorem decomposeHomography_ok {F : Type} [Field F] [DecidableEq F] (sqrt : F → F)
    (H matK : Mat3 F) :
    ∃ pose, decomposeHomography sqrt H matK = .ok pose
      ∧ col pose 0 = scale (col (inv3 matK * H) 0) (1 / norm sqrt (col (inv3 matK * H) 0))
      ∧ col pose 1 = scale (col (inv3 matK * H) 1) (1 / norm sqrt (col (inv3 matK * H) 0))
      ∧ col pose 2 = cross (col pose 0) (col pose 1)
      ∧ col pose 3 = scale (col (inv3 matK * H) 2) (1 / norm sqrt (col (inv3 matK * H) 0)) := by
  have hcol : ∀ (v : Vec3 F) (m : Mat34 F) (j k : Fin 4),
      col (copyToCol v m j) k = if k = j then v else col m k := by
    intro v m j k
    funext i
    by_cases h : k = j <;> simp [col, copyToCol, h]
  refine ⟨_, rfl, ?_, ?_, ?_, ?_⟩ <;> simp [hcol]

/-- C1: for every matrix R = [r1 r2 r3] with orthonormal columns (in
particular every rotation), every translation t and every invertible matK,
decomposing H = matK·[r1 r2 t] over the reals returns a pose whose column 0 is
r1, column 1 is r2, column 2 is the cross product of the recovered columns 0
and 1, and column 3 is t. -/
theorem decomposeHomography_recovers_pose (matK R : Mat3 ℝ) (t : Vec3 ℝ)
    (hR : R.transpose * R = 1) (hK : matK.det ≠ 0) :
    ∃ pose, decomposeHomography Real.sqrt (homographyOf matK R t) matK = .ok pose
      ∧ col pose 0 = col R 0 ∧ col pose 1 = col R 1
      ∧ col pose 2 = crossProduct (col pose 0) (col pose 1)
      ∧ col pose 3 = t := by
  obtain ⟨pose, hp, h0, h1, h2, h3⟩ :=
    decomposeHomography_ok Real.sqrt (homographyOf matK R t) matK
  have hM : inv3 matK * homographyOf matK R t
      = (Matrix.of fun i j => if j = 2 then t i else R i j : Mat3 ℝ) := by
    unfold homographyOf
    rw [← Matrix.mul_assoc, inv3_mul_self _ (by rwa [det3_eq_det]), Matrix.one_mul]
  have c0 : col (inv3 matK * homographyOf matK R t) 0 = col R 0 := by
    rw [hM]; funext i; simp [col]
  have c1 : col (inv3 matK * homographyOf matK R t) 1 = col R 1 := by
    rw [hM]; funext i; simp [col]
  have c2 : col (inv3 matK * homographyOf matK R t) 2 = t := by
    rw [hM]; funext i; simp [col]
  have hn : norm Real.sqrt (col R 0) = 1 := by
    have h00 := congrFun (congrFun hR 0) 0
    simp [Matrix.mul_apply, Fin.sum_univ_three] at h00
    simp [norm, col, h00]
  rw [c0, hn, div_one, scale_one] at h0
  rw [c1, c0, hn, div_one, scale_one] at h1
  rw [c2, c0, hn, div_one, scale_one] at h3
  exact ⟨pose, hp, h0, h1, by rw [h2, cross_eq_crossProduct], h3⟩

/-- Witness for C1: the quarter turn about the z-axis, the translation
(1, 2, 3) and a calibration matrix with focal length 800 and principal point
(320, 240). -/
theorem decomposeHomography_recovers_pose_witness :
    ∃ pose, decomposeHomography Real.sqrt
          (homographyOf !![800, 0, 320; 0, 800, 240; 0, 0, 1]
            !![0, -1, 0; 1, 0, 0; 0, 0, 1] ![1, 2, 3])
          !![800, 0, 320; 0, 800, 240; 0, 0, 1] = .ok pose
      ∧ col pose 0 = col (!![0, -1, 0; 1, 0, 0; 0, 0, 1] : Mat3 ℝ) 0
      ∧ col pose 1 = col (!![0, -1, 0; 1, 0, 0; 0, 0, 1] : Mat3 ℝ) 1
      ∧ col pose 2 = crossProduct (col pose 0) (col pose 1)
      ∧ col pose 3 = ![1, 2, 3] :=
  decomposeHomography_recovers_pose !![800, 0, 320; 0, 800, 240; 0, 0, 1]
    !![0, -1, 0; 1, 0, 0; 0, 0, 1] ![1, 2, 3]
    (by
      ext i j
      fin_cases i <;> fin_cases j <;>
        simp [Matrix.mul_apply, Fin.sum_univ_three, Matrix.transpose_apply,
          Matrix.vecHead, Matrix.vecTail])
    (by rw [Matrix.det_fin_three]; simp [Matrix.vecHead, Matrix.vecTail])

/-- C7: for every homography H = [[s,0,u],[0,s,v],[0,0,1]] with s > 0 and
identity matK, `decomposeHomography` over the reals returns a pose whose
translation has a positive z-component and whose rotation block is the
identity matrix. -/
theorem decomposeHomography_frontoParallel (s u v : ℝ) (hs : 0 < s) :
    ∃ pose, decomposeHomography Real.sqrt (frontoParallel s u v) 1 = .ok pose
      ∧ 0 < translationOf pose 2 ∧ rotationOf pose = 1 := by
  obtain ⟨pose, hp, h0, h1, h2, h3⟩ :=
    decomposeHomography_ok Real.sqrt (frontoParallel s u v) 1
  have hI : inv3 (1 : Mat3 ℝ) = 1 := by
    have h := inv3_mul_self (1 : Mat3 ℝ) (by rw [det3_eq_det]; simp)
    rwa [Matrix.mul_one] at h
  have hn : norm Real.sqrt (col (frontoParallel s u v) 0) = s := by
    simp [norm, col, frontoParallel, Real.sqrt_mul_self hs.le, Matrix.vecHead,
      Matrix.vecTail]
  rw [hI, Matrix.one_mul, hn] at h0 h1 h3
  have hs0 : s ≠ 0 := hs.ne'
  have e0 : col pose 0 = ![1, 0, 0] := by
    rw [h0]; funext i
    fin_cases i <;> simp [scale, col, frontoParallel, hs0, Matrix.vecHead, Matrix.vecTail]
  have e1 : col pose 1 = ![0, 1, 0] := by
    rw [h1]; funext i
    fin_cases i <;> simp [scale, col, frontoParallel, hs0, Matrix.vecHead, Matrix.vecTail]
  have e2 : col pose 2 = ![0, 0, 1] := by
    rw [h2, e0, e1]; funext i
    fin_cases i <;> simp [cross, Matrix.vecHead, Matrix.vecTail]
  refine ⟨pose, hp, ?_, ?_⟩
  · have : translationOf pose 2 = 1 / s := by
      unfold translationOf
      rw [h3]; simp [scale, col, frontoParallel, Matrix.vecHead, Matrix.vecTail]
    rw [this]; positivity
  · ext i j
    fin_cases j
    · show col pose 0 i = (1 : Mat3 ℝ) i 0
      rw [e0]; fin_cases i <;> rfl
    · show col pose 1 i = (1 : Mat3 ℝ) i 1
      rw [e1]; fin_cases i <;> rfl
    · show col pose 2 i = (1 : Mat3 ℝ) i 2
      rw [e2]; fin_cases i <;> rfl

/-- Witness for C7: scale 2 and image offset (320, 240). -/
theorem decomposeHomography_frontoParallel_witness :
    ∃ pose, decomposeHomography Real.sqrt (frontoParallel 2 320 240) 1 = .ok pose
      ∧ 0 < translationOf pose 2 ∧ rotationOf pose = 1 :=
  decomposeHomography_frontoParallel 2 320 240 (by norm_num)

/-- C6, as the spec states it, fails: with the singular calibration matrix
[[800,0,320],[0,0,240],[0,0,1]] (determinant 0) and the identity homography,
`decomposeHomography` ends in no error at all. -/
theorem decomposeHomography_singular_no_error :
    Matrix.det (!![800, 0, 320; 0, 0, 240; 0, 0, 1] : Mat3 ℝ) = 0
    ∧ ¬ ∃ e, decomposeHomography Real.sqrt (1 : Mat3 ℝ)
          !![800, 0, 320; 0, 0, 240; 0, 0, 1] = Except.error e := by
  constructor
  · rw [Matrix.det_fin_three]; simp [Matrix.vecHead, Matrix.vecTail]
  · rintro ⟨e, he⟩
    obtain ⟨pose, hp, -⟩ := decomposeHomography_ok Real.sqrt (1 : Mat3 ℝ)
      !![800, 0, 320; 0, 0, 240; 0, 0, 1]
    rw [hp] at he
    cases he

/-- C6, amended: `decomposeHomography` has no check on `matK` and no failure
path; for every calibration matrix, the non-invertible ones (determinant 0)
included, and every H it raises no error and returns a pose matrix. -/
theorem decomposeHomography_never_fails {F : Type} [Field F] [DecidableEq F]
    (sqrt : F → F) (H matK : Mat3 F) :
    ∃ pose, decomposeHomography sqrt H matK = .ok pose := by
  obtain ⟨pose, hp, -⟩ := decomposeHomography_ok sqrt H matK
  exact ⟨pose, hp⟩

/-! ## Properties of the detection adapter -/

/-- What `detectChessboard` does on ASYMMETRIC_CIRCLES_GRID, for every
library: one call of `findCirclesGrid` with `flags` equal to
`CALIB_CB_ASYMMETRIC_GRID`, whose outcome is returned as it is. -/
theorem detectChessboard_asymmetric_run {Img Pt : Type} (cv : FeatureDetection Img Pt)
    (rgbimage : Img) (pointbuf : List Pt) (boardSize : Size) (tr : Trace) :
    (detectChessboard cv rgbimage pointbuf boardSize .ASYMMETRIC_CIRCLES_GRID).run tr
      = (cv.findCirclesGrid rgbimage boardSize pointbuf CALIB_CB_ASYMMETRIC_GRID).map
          (fun r => (r, ⟨tr.calls ++ [.findCirclesGrid boardSize CALIB_CB_ASYMMETRIC_GRID],
            tr.cerr⟩)) := by
  cases h : cv.findCirclesGrid rgbimage boardSize pointbuf CALIB_CB_ASYMMETRIC_GRID <;>
    simp [detectChessboard, libCall, h, Except.map]

/-- C9: for every frame, point buffer and board size, `detectChessboard` on a
pattern kind without an enumerator returns normally with found = false and
the point buffer unchanged; it makes no library call (the list of calls is
unchanged) and writes one line to `cerr`. -/
theorem detectChessboard_unknown_pattern {Img Pt : Type} (cv : FeatureDetection Img Pt)
    (rgbimage : Img) (pointbuf : List Pt) (boardSize : Size) (v : Int) (tr : Trace) :
    (detectChessboard cv rgbimage pointbuf boardSize (.unnamed v)).run tr
      = .ok ((false, pointbuf), ⟨tr.calls, tr.cerr ++ ["Unknown pattern type"]⟩) := by
  rfl

/-- C10, evaluated: on ASYMMETRIC_CIRCLES_GRID with the library
`clusteringDetector`, `detectChessboard` calls `findCirclesGrid` with flags 2
(`CALIB_CB_ASYMMETRIC_GRID` alone) and returns found = false, while the same
detector called with `CALIB_CB_ASYMMETRIC_GRID | CALIB_CB_CLUSTERING` (6)
finds the grid. -/
theorem detectChessboard_asymmetric_omits_clustering :
    (detectChessboard clusteringDetector () [] ⟨4, 11⟩ .ASYMMETRIC_CIRCLES_GRID).run ⟨[], []⟩
        = .ok ((false, []), ⟨[.findCirclesGrid ⟨4, 11⟩ 2], []⟩)
    ∧ clusteringDetector.findCirclesGrid () ⟨4, 11⟩ []
          (CALIB_CB_ASYMMETRIC_GRID ||| CALIB_CB_CLUSTERING) = .ok (true, [])
    ∧ CALIB_CB_ASYMMETRIC_GRID ||| CALIB_CB_CLUSTERING = 6 := by
  refine ⟨?_, ?_, ?_⟩ <;> rfl

/-! ## Properties of the robust pose estimator -/

/-- C11, as the spec states it, fails: with the library `noPoseLibrary`, whose
RANSAC solver reports that no pose was found, `mySolvePnPRansac` ends in no
error and returns the pose matrix [I | 0]. -/
theorem mySolvePnPRansac_ignores_report :
    noPoseLibrary.solvePnPRansac () () () [] false 100 2 (99 / 100)
        = .ok (false, 0, 0, [])
    ∧ mySolvePnPRansac noPoseLibrary () () () [] = .ok (assemblePose 1 0, [])
    ∧ ¬ ∃ e, mySolvePnPRansac noPoseLibrary () () () [] = Except.error e := by
  refine ⟨rfl, rfl, ?_⟩
  rintro ⟨e, he⟩
  have h : mySolvePnPRansac noPoseLibrary () () () [] = .ok (assemblePose 1 0, []) := rfl
  rw [h] at he
  cases he

/-- C11, amended: `mySolvePnPRansac` does not look at the flag the RANSAC
solver returns.  Whenever `solvePnPRansac` and `Rodrigues` return, whether the
solver reports a pose or none, it returns the pose matrix
[Rodrigues(rvec) | tvec] with the solver's inliers; it ends in an error only
when one of the two library calls raises one, and then in that error. -/
theorem mySolvePnPRansac_outcome {F Obj Img Cam Dist RVec Inl P : Type}
    (cv : PoseLibrary F Obj Img Cam Dist RVec Inl P)
    (objectPoints : Obj) (imagePoints : Img) (cameraMatrix : Cam) (distCoeffs : Dist) :
    (∀ found currR currT inliers Rot,
        cv.solvePnPRansac objectPoints imagePoints cameraMatrix distCoeffs false 100 2
            (99 / 100) = .ok (found, currR, currT, inliers) →
        cv.Rodrigues currR = .ok Rot →
        mySolvePnPRansac cv objectPoints imagePoints cameraMatrix distCoeffs
          = .ok (assemblePose Rot currT, inliers))
    ∧ (∀ e,
        mySolvePnPRansac cv objectPoints imagePoints cameraMatrix distCoeffs = .error e →
        cv.solvePnPRansac objectPoints imagePoints cameraMatrix distCoeffs false 100 2
            (99 / 100) = .error e
        ∨ ∃ found currR currT inliers,
            cv.solvePnPRansac objectPoints imagePoints cameraMatrix distCoeffs false 100 2
              (99 / 100) = .ok (found, currR, currT, inliers)
            ∧ cv.Rodrigues currR = .error e) := by
  constructor
  · intro found currR currT inliers Rot hs hr
    simp [mySolvePnPRansac, hs, hr, bind, Except.bind, pure, Except.pure]
  · intro e he
    cases hs : cv.solvePnPRansac objectPoints imagePoints cameraMatrix distCoeffs false 100 2
        (99 / 100) with
    | error e1 =>
      left
      simp [mySolvePnPRansac, hs, bind, Except.bind] at he
      rw [he]
    | ok r =>
      obtain ⟨found, currR, currT, inliers⟩ := r
      right
      refine ⟨found, currR, currT, inliers, rfl, ?_⟩
      cases hr : cv.Rodrigues currR with
      | error e2 =>
        simp [mySolvePnPRansac, hs, hr, bind, Except.bind] at he
        rw [he]
      | ok Rot =>
        simp [mySolvePnPRansac, hs, hr, bind, Except.bind, pure, Except.pure] at he

/-- Witness for the amended C11: the library whose solver reports no pose. -/
theorem mySolvePnPRansac_outcome_witness :
    mySolvePnPRansac noPoseLibrary () () () [] = .ok (assemblePose 1 0, []) :=
  (mySolvePnPRansac_outcome noPoseLibrary () () () []).1 false 0 0 [] 1 rfl rfl

/-! ## Properties of the calibration file loader -/

/-- What `loadCameraParameters` does when the file cannot be opened, for every
file system: it writes one line to `cerr`, leaves both matrices as they were
and returns `EXIT_FAILURE` converted to `bool`, which is `true`. -/
theorem loadCameraParameters_unopened {M : Type} (fs : FileStorage M)
    (calibFilename : String) (matK dist : M) (h : fs.fsOpen calibFilename 0 = false) :
    loadCameraParameters fs calibFilename matK dist
      = ⟨true, matK, dist, ["Aborting..."], []⟩ := by
  simp [loadCameraParameters, h, intToBool, EXIT_FAILURE]

/-- C12, evaluated: on the file system `noFiles`, where the file
"missing.yml" cannot be opened, `loadCameraParameters` returns true, not
false, and leaves the matrices as they were. -/
theorem loadCameraParameters_missing_file_returns_true :
    noFiles.fsOpen "missing.yml" 0 = false
    ∧ (loadCameraParameters noFiles "missing.yml" [] []).returned = true
    ∧ (loadCameraParameters noFiles "missing.yml" [] []).cerr = ["Aborting..."] := by
  refine ⟨rfl, ?_, ?_⟩ <;> rfl

/-! ## Properties of the reference system overlay -/

/-- What `drawReferenceSystem` draws, for every library in which the
conversion of the rotation block succeeds: with `proj` the projection of one
point, the segment labelled "X" ends at the image of (0, scale, 0), the one
labelled "Y" at the image of (scale, 0, 0) and the one labelled "Z" at the
image of (0, 0, -scale). -/
theorem drawReferenceSystem_draws {F Obj Img Cam RVec Inl P : Type} [Zero F] [Neg F]
    (cv : PoseLibrary F Obj Img Cam (List F) RVec Inl P)
    (rgbimage : List (DrawCmd P)) (cam : Camera Cam (List F)) (projMat : Mat34 F)
    (thickness : Int) (scale : F) (alreadyUndistorted : Bool) (rvec : RVec)
    (hr : cv.RodriguesInv (rotationOf projMat) = .ok rvec) :
    drawReferenceSystem cv rgbimage cam projMat thickness scale alreadyUndistorted
      = .ok (
        let proj := cv.projectPoint rvec (translationOf projMat) cam.matK
          (if alreadyUndistorted then List.replicate 5 (0 : F) else cam.distCoeff)
        rgbimage ++
          [.line (proj ⟨0, 0, 0⟩) (proj ⟨0, scale, 0⟩) ⟨255, 0, 0⟩ thickness,
           .putText "X" (proj ⟨0, scale, 0⟩) FONT_HERSHEY_SIMPLEX 1 ⟨255, 0, 0⟩ 2,
           .line (proj ⟨0, 0, 0⟩) (proj ⟨scale, 0, 0⟩) ⟨0, 255, 0⟩ thickness,
           .putText "Y" (proj ⟨scale, 0, 0⟩) FONT_HERSHEY_SIMPLEX 1 ⟨0, 255, 0⟩ 2,
           .line (proj ⟨0, 0, 0⟩) (proj ⟨0, 0, -scale⟩) ⟨0, 0, 255⟩ thickness,
           .putText "Z" (proj ⟨0, 0, -scale⟩) FONT_HERSHEY_SIMPLEX 1 ⟨0, 0, 255⟩ 2]) := by
  simp [drawReferenceSystem, myProjectPoints, hr, drawLine, bind, Except.bind, pure,
    Except.pure]

/-- C14, evaluated: with the library `plainProjection`, which leaves every
point as it is, and scale 2, `drawReferenceSystem` draws the segment labelled
"X" from the origin to (0, 2, 0), a point of the y-axis, and the segment
labelled "Y" to (2, 0, 0), a point of the x-axis; the segment labelled "Z"
ends at (0, 0, -2). -/
theorem drawReferenceSystem_swaps_X_and_Y :
    drawReferenceSystem plainProjection [] ⟨(), []⟩ 0 1 (2 : ℚ) true
      = .ok [.line ⟨0, 0, 0⟩ ⟨0, 2, 0⟩ ⟨255, 0, 0⟩ 1,
             .putText "X" ⟨0, 2, 0⟩ 0 1 ⟨255, 0, 0⟩ 2,
             .line ⟨0, 0, 0⟩ ⟨2, 0, 0⟩ ⟨0, 255, 0⟩ 1,
             .putText "Y" ⟨2, 0, 0⟩ 0 1 ⟨0, 255, 0⟩ 2,
             .line ⟨0, 0, 0⟩ ⟨0, 0, -2⟩ ⟨0, 0, 255⟩ 1,
             .putText "Z" ⟨0, 0, -2⟩ 0 1 ⟨0, 0, 255⟩ 2] := by
  rfl

/-! ## Properties of the command line parser -/

/-- Once a `-w` or `-h` among the arguments left is followed by a value that
the test on the value rejects, the loop of `parseArgs` returns false. -/
theorem parseLoop_rejects (sscanfU : String → Option Int)
    (hw : sscanfU "-w" = none) (hh : sscanfU "-h" = none) :
    ∀ (n : Nat) (args : List String), args.length ≤ n →
      ∀ (st : ParseState) (k : Nat) (f v : String),
        args[k]? = some f → (f = "-w" ∨ f = "-h") → args[k + 1]? = some v →
        invalidValue sscanfU v →
        ∃ st1, parseLoop sscanfU args st = .ok (false, st1) := by
  intro n
  induction n with
  | zero =>
    intro args hlen st k f v hf _ _ _
    have : args = [] := List.length_eq_zero.mp (Nat.le_zero.mp hlen)
    subst this
    simp at hf
  | succ n ih =>
    intro args hlen st k f v hf hfl hv hinv
    have hfnone : sscanfU f = none := by rcases hfl with h | h <;> subst h <;> assumption
    cases args with
    | nil => simp at hf
    | cons s rest =>
      -- a flag that takes a value, followed by the arguments `w :: tl`
      have step : ∀ (w : String) (tl : List String) (st2 : ParseState), rest = w :: tl →
          (k = 0 → False) → sscanfU w ≠ none ∨ (w ≠ "-w" ∧ w ≠ "-h") →
          ∃ st1, parseLoop sscanfU tl st2 = .ok (false, st1) := by
        intro w tl st2 hrest hk0 hwval
        subst hrest
        match k, hf, hv, hk0 with
        | 0, _, _, hk0 => exact (hk0 rfl).elim
        | 1, hf, _, _ =>
          simp at hf
          subst hf
          rcases hwval with h | h
          · exact (h hfnone).elim
          · rcases hfl with h1 | h1
            · exact (h.1 h1).elim
            · exact (h.2 h1).elim
        | k2 + 2, hf, hv, _ =>
          simp at hf hv
          refine ih tl ?_ st2 k2 f v hf hfl hv hinv
          simp at hlen
          omega
      rw [parseLoop.eq_def]
      simp only
      by_cases h1 : s = "-w"
      · rw [if_pos h1]
        cases rest with
        | nil =>
          cases k with
          | zero => simp at hv
          | succ k1 => simp at hf
        | cons w tl =>
          cases hsc : sscanfU w with
          | none => exact ⟨_, by simp only [hsc]; rfl⟩
          | some m =>
            by_cases hm : m ≤ 0
            · exact ⟨_, by simp only [hsc, hm, if_true]; rfl⟩
            · simp only [hsc, hm, if_false]
              refine step w tl _ rfl ?_ (Or.inl (by simp [hsc]))
              intro hk
              subst hk
              simp at hv
              subst hv
              rcases hinv with h | ⟨m1, h, hle⟩
              · simp [hsc] at h
              · rw [hsc] at h
                cases h
                exact hm hle
      · rw [if_neg h1]
        by_cases h2 : s = "-h"
        · rw [if_pos h2]
          cases rest with
          | nil =>
            cases k with
            | zero => simp at hv
            | succ k1 => simp at hf
          | cons w tl =>
            cases hsc : sscanfU w with
            | none => exact ⟨_, by simp only [hsc]; rfl⟩
            | some m =>
              by_cases hm : m ≤ 0
              · exact ⟨_, by simp only [hsc, hm, if_true]; rfl⟩
              · simp only [hsc, hm, if_false]
                refine step w tl _ rfl ?_ (Or.inl (by simp [hsc]))
                intro hk
                subst hk
                simp at hv
                subst hv
                rcases hinv with h | ⟨m1, h, hle⟩
                · simp [hsc] at h
                · rw [hsc] at h
                  cases h
                  exact hm hle
        · rw [if_neg h2]
          have hk : k ≠ 0 := by
            intro hk
            subst hk
            simp at hf
            subst hf
            rcases hfl with h | h
            · exact h1 h
            · exact h2 h
          obtain ⟨k1, rfl⟩ := Nat.exists_eq_succ_of_ne_zero hk
          simp at hf hv
          have hlen1 : rest.length ≤ n := by simp at hlen; omega
          by_cases h3 : s.get 0 ≠ '-'
          · rw [if_pos h3]
            exact ih rest hlen1 _ k1 f v hf hfl hv hinv
          · rw [if_neg h3]
            by_cases h4 : s = "-pt"
            · rw [if_pos h4]
              cases rest with
              | nil => simp at hf
              | cons w tl =>
                by_cases p1 : w = "circles"
                · simp only [p1, if_true]
                  exact step w tl _ rfl (by simp) (Or.inr (by subst p1; decide))
                · by_cases p2 : w = "acircles"
                  · simp only [p2, if_true]
                    exact step w tl _ rfl (by simp) (Or.inr (by subst p2; decide))
                  · by_cases p3 : w = "chess"
                    · simp only [p3, if_true]
                      exact step w tl _ rfl (by simp) (Or.inr (by subst p3; decide))
                    · exact ⟨_, by simp only [p1, p2, p3, if_false]; rfl⟩
            · rw [if_neg h4]
              exact ⟨_, rfl⟩

/-- C13, evaluated: the argument vector `./rectify -pt chess video.avi` has
neither `-w` nor `-h`, the two flags the usage text of `help` lists as
required, and `parseArgs` returns true on it, not false, with the board size
left at 0 x 0. -/
theorem parseArgs_accepts_missing_flags :
    "-w" ∉ ["./rectify", "-pt", "chess", "video.avi"]
    ∧ "-h" ∉ ["./rectify", "-pt", "chess", "video.avi"]
    ∧ parseArgs decimalScan ["./rectify", "-pt", "chess", "video.avi"] ParseState.initial
        = .ok (true, ⟨⟨0, 0⟩, "video.avi", .CHESSBOARD, [], false⟩) := by
  have h1 : "-pt".get 0 = '-' := by decide
  have h2 : ¬ "video.avi".get 0 = '-' := by decide
  refine ⟨by decide, by decide, ?_⟩
  simp [parseArgs, parseLoop, ParseState.initial, h1, h2]

/-- The command lines `parseArgs` does reject: it returns false for every
argument vector with fewer than 3 entries, and for every argument vector in
which a `-w` or a `-h` (at an index from 1 on) is followed by a value that
`sscanf` does not convert or converts to a value that is not positive.  The
conversion `sscanfU` is any one that converts neither "-w" nor "-h". -/
theorem parseArgs_rejects (sscanfU : String → Option Int)
    (hw : sscanfU "-w" = none) (hh : sscanfU "-h" = none)
    (argv : List String) (st : ParseState) :
    ((argv.length : Int) < 3 → ∃ st1, parseArgs sscanfU argv st = .ok (false, st1))
    ∧ (∀ (k : Nat) (f v : String), 1 ≤ k → argv[k]? = some f → (f = "-w" ∨ f = "-h") →
        argv[k + 1]? = some v → invalidValue sscanfU v →
        ∃ st1, parseArgs sscanfU argv st = .ok (false, st1)) := by
  constructor
  · intro h
    exact ⟨_, by simp only [parseArgs, h, if_true]; rfl⟩
  · intro k f v hk hf hfl hv hinv
    unfold parseArgs
    by_cases h : (argv.length : Int) < 3
    · exact ⟨_, by simp only [h, if_true]; rfl⟩
    · simp only [h, if_false]
      obtain ⟨k1, rfl⟩ : ∃ k1, k = k1 + 1 := ⟨k - 1, by omega⟩
      refine parseLoop_rejects sscanfU hw hh _ (argv.drop 1) le_rfl st k1 f v ?_ hfl ?_ hinv
      · rw [List.getElem?_drop, Nat.add_comm]; exact hf
      · rw [List.getElem?_drop]
        have : 1 + (k1 + 1) = k1 + 1 + 1 := by omega
        rw [this]; exact hv

/-- An instance of `parseArgs_rejects`: `./rectify -w 0 -h 6 video.avi`, where
the value 0 of `-w` is not positive. -/
theorem parseArgs_rejects_witness :
    ∃ st1, parseArgs decimalScan ["./rectify", "-w", "0", "-h", "6", "video.avi"]
        ParseState.initial = .ok (false, st1) :=
  (parseArgs_rejects decimalScan (by decide) (by decide)
      ["./rectify", "-w", "0", "-h", "6", "video.avi"] ParseState.initial).2
    1 "-w" "0" le_rfl rfl (Or.inl rfl) rfl (Or.inr ⟨0, by decide, le_rfl⟩)

/-! ## Rescaling of the homography -/

theorem norm_scaled (s : ℝ) (v : Vec3 ℝ) :
    norm Real.sqrt (fun i => s * v i) = |s| * norm Real.sqrt v := by
  unfold norm
  have h : s * v 0 * (s * v 0) + s * v 1 * (s * v 1) + s * v 2 * (s * v 2)
      = s ^ 2 * (v 0 * v 0 + v 1 * v 1 + v 2 * v 2) := by ring
  rw [h, Real.sqrt_mul (sq_nonneg s), Real.sqrt_sq_eq_abs]

theorem norm_ne_zero (v : Vec3 ℝ) (hv : v ≠ 0) : norm Real.sqrt v ≠ 0 := by
  intro h
  unfold norm at h
  have hle := Real.sqrt_eq_zero'.mp h
  have h0 : v 0 = 0 := by nlinarith [mul_self_nonneg (v 0), mul_self_nonneg (v 1), mul_self_nonneg (v 2)]
  have h1 : v 1 = 0 := by nlinarith [mul_self_nonneg (v 0), mul_self_nonneg (v 1), mul_self_nonneg (v 2)]
  have h2 : v 2 = 0 := by nlinarith [mul_self_nonneg (v 0), mul_self_nonneg (v 1), mul_self_nonneg (v 2)]
  apply hv
  funext i
  fin_cases i
  · exact h0
  · exact h1
  · exact h2

theorem col_inv3_mul_ne_zero (matK H : Mat3 ℝ) (hK : matK.det ≠ 0) (hH : col H 0 ≠ 0) :
    col (inv3 matK * H) 0 ≠ 0 := by
  intro h
  apply hH
  have hinv : matK * inv3 matK = 1 :=
    (Matrix.mul_eq_one_comm).mp (inv3_mul_self matK (by rwa [det3_eq_det]))
  have hHe : H = matK * (inv3 matK * H) := by
    rw [← Matrix.mul_assoc, hinv, Matrix.one_mul]
  funext i
  have hz : ∀ j, (inv3 matK * H) j 0 = 0 := fun j => congrFun h j
  show H i 0 = 0
  rw [hHe, Matrix.mul_apply]
  exact Finset.sum_eq_zero (fun j _ => by rw [hz j, mul_zero])

theorem col_inv3_mul_smul (matK H : Mat3 ℝ) (s : ℝ) (j : Fin 3) :
    col (inv3 matK * (s • H)) j = fun i => s * col (inv3 matK * H) j i := by
  funext i
  simp [col, Matrix.mul_smul]

theorem pose_ext {F : Type} (p q : Mat34 F) (h : ∀ j, col p j = col q j) : p = q := by
  funext i j
  exact congrFun (h j) i

theorem cross_neg_neg {F : Type} [Field F] (a b : Vec3 F) :
    cross (-a) (-b) = cross a b := by
  funext i
  fin_cases i <;> simp [cross, Matrix.vecHead, Matrix.vecTail]

/-- C15: for every invertible matK, every H whose first column is not zero
and every scalar s, decomposing s·H over the reals gives, for s > 0, the same
pose as decomposing H and, for s < 0, the pose with the columns r1, r2 and t
negated and r3 unchanged; the norm that lambda divides by is not zero. -/
theorem decomposeHomography_rescale (matK H : Mat3 ℝ) (s : ℝ)
    (hK : matK.det ≠ 0) (hH : col H 0 ≠ 0) :
    norm Real.sqrt (col (inv3 matK * H) 0) ≠ 0
    ∧ ∃ pose poseS, decomposeHomography Real.sqrt H matK = .ok pose
      ∧ decomposeHomography Real.sqrt (s • H) matK = .ok poseS
      ∧ (0 < s → poseS = pose)
      ∧ (s < 0 → col poseS 0 = -col pose 0 ∧ col poseS 1 = -col pose 1
          ∧ col poseS 2 = col pose 2 ∧ col poseS 3 = -col pose 3) := by
  have hn := norm_ne_zero _ (col_inv3_mul_ne_zero matK H hK hH)
  obtain ⟨pose, hp, h0, h1, h2, h3⟩ := decomposeHomography_ok Real.sqrt H matK
  obtain ⟨poseS, hpS, g0, g1, g2, g3⟩ := decomposeHomography_ok Real.sqrt (s • H) matK
  rw [col_inv3_mul_smul, norm_scaled] at g0
  rw [col_inv3_mul_smul matK H s 1, col_inv3_mul_smul matK H s 0, norm_scaled] at g1
  rw [col_inv3_mul_smul matK H s 2, col_inv3_mul_smul matK H s 0, norm_scaled] at g3
  refine ⟨hn, pose, poseS, hp, hpS, ?_, ?_⟩
  · intro hs
    have hs0 : s ≠ 0 := hs.ne'
    rw [abs_of_pos hs] at g0 g1 g3
    have e0 : col poseS 0 = col pose 0 := by
      rw [g0, h0]; funext i; simp only [scale]; field_simp; ring
    have e1 : col poseS 1 = col pose 1 := by
      rw [g1, h1]; funext i; simp only [scale]; field_simp; ring
    have e3 : col poseS 3 = col pose 3 := by
      rw [g3, h3]; funext i; simp only [scale]; field_simp; ring
    have e2 : col poseS 2 = col pose 2 := by rw [g2, h2, e0, e1]
    apply pose_ext
    intro j
    fin_cases j
    · exact e0
    · exact e1
    · exact e2
    · exact e3
  · intro hs
    have hs0 : s ≠ 0 := hs.ne
    rw [abs_of_neg hs] at g0 g1 g3
    have e0 : col poseS 0 = -col pose 0 := by
      rw [g0, h0]; funext i; simp only [scale, Pi.neg_apply]; field_simp; ring
    have e1 : col poseS 1 = -col pose 1 := by
      rw [g1, h1]; funext i; simp only [scale, Pi.neg_apply]; field_simp; ring
    have e3 : col poseS 3 = -col pose 3 := by
      rw [g3, h3]; funext i; simp only [scale, Pi.neg_apply]; field_simp; ring
    have e2 : col poseS 2 = col pose 2 := by rw [g2, h2, e0, e1, cross_neg_neg]
    exact ⟨e0, e1, e2, e3⟩

/-- Witness for C15: the calibration matrix with focal length 800 and
principal point (320, 240), the identity homography and the factor -2. -/
theorem decomposeHomography_rescale_witness :
    norm Real.sqrt (col (inv3 (!![800, 0, 320; 0, 800, 240; 0, 0, 1] : Mat3 ℝ) * 1) 0) ≠ 0
    ∧ ∃ pose poseS,
      decomposeHomography Real.sqrt 1 (!![800, 0, 320; 0, 800, 240; 0, 0, 1] : Mat3 ℝ)
        = .ok pose
      ∧ decomposeHomography Real.sqrt ((-2 : ℝ) • (1 : Mat3 ℝ))
          (!![800, 0, 320; 0, 800, 240; 0, 0, 1] : Mat3 ℝ) = .ok poseS
      ∧ (0 < (-2 : ℝ) → poseS = pose)
      ∧ ((-2 : ℝ) < 0 → col poseS 0 = -col pose 0 ∧ col poseS 1 = -col pose 1
          ∧ col poseS 2 = col pose 2 ∧ col poseS 3 = -col pose 3) :=
  decomposeHomography_rescale !![800, 0, 320; 0, 800, 240; 0, 0, 1] 1 (-2)
    (by rw [Matrix.det_fin_three]; simp [Matrix.vecHead, Matrix.vecTail])
    (by
      intro h
      have := congrFun h 0
      simp [col] at this)

end Tracker
